import Mathlib

/-!
Shallow embedding of the `nomcurl` curl-command parser (Rust, nom 8) and
proofs about the claims of its specification.

Modelling conventions:
* Input strings are `List Char`; every parser consumes a prefix and returns
  the unconsumed suffix, mirroring nom's `IResult<&str, T>`.
* `PRes α` mirrors nom's result: `.ok rest value`, `.err` for the
  recoverable `nom::Err::Error` (an `alt` tries the next branch, a
  `fold_many0` stops), `.fail` for `nom::Err::Failure` (aborts the whole
  parse).  Error payloads (position, `ErrorKind`) are dropped: no claim
  depends on them, only on the Error/Failure distinction.
* Character classes follow the source: nom's `multispace0/1` is the ASCII
  set space, tab, carriage return, newline; nom's `alpha1`,
  `alphanumeric0/1` are ASCII-only.  Rust's Unicode `char::is_alphanumeric`
  (used for flag identifiers) and Unicode trimming are modelled by their
  ASCII restrictions; every concrete input in the claims is ASCII.
-/

namespace NomCurl

abbrev Input := List Char

/-- Result of a nom parser: `ok rest value`, recoverable error, or hard failure. -/
inductive PRes (α : Type) where
  | ok : Input → α → PRes α
  | err : PRes α
  | fail : PRes α
  deriving DecidableEq, Repr

/-- Rust `r.is_ok()` as a proposition on a parse result. -/
def PRes.isOk {α : Type} : PRes α → Prop
  | .ok _ _ => True
  | _ => False

/-- Rust `r.is_err()` (the result is `Error` or `Failure`, not `Ok`). -/
def PRes.notOk {α : Type} : PRes α → Prop
  | .ok _ _ => False
  | _ => True

instance {α : Type} (r : PRes α) : Decidable (r.isOk) := by
  cases r <;> simp [PRes.isOk] <;> infer_instance

instance {α : Type} (r : PRes α) : Decidable (r.notOk) := by
  cases r <;> simp [PRes.notOk] <;> infer_instance

/-- nom `multispace0/1` character set: space, tab, newline, carriage return. -/
def isSpaceChar (c : Char) : Bool :=
  c.toNat = 32 || c.toNat = 9 || c.toNat = 10 || c.toNat = 13

/-- nom `alpha1`: ASCII `a-zA-Z`. -/
def isAsciiAlpha (c : Char) : Bool :=
  (97 ≤ c.toNat && c.toNat ≤ 122) || (65 ≤ c.toNat && c.toNat ≤ 90)

/-- ASCII digit `0-9`. -/
def isAsciiDigit (c : Char) : Bool :=
  48 ≤ c.toNat && c.toNat ≤ 57

/-- nom `alphanumeric0/1`: ASCII `a-zA-Z0-9`. -/
def isAsciiAlphanum (c : Char) : Bool :=
  isAsciiAlpha c || isAsciiDigit c

/-- Rust `char::to_ascii_lowercase`. -/
def asciiLower (c : Char) : Char :=
  if 65 ≤ c.toNat ∧ c.toNat ≤ 90 then Char.ofNat (c.toNat + 32) else c

/-- Rust flag-identifier characters: alphanumeric, `-` or `_`
(`char::is_alphanumeric`, restricted to ASCII). -/
def isFlagChar (c : Char) : Bool :=
  isAsciiAlphanum c || c.toNat = 45 || c.toNat = 95

/-- Rust `str::trim_start` (ASCII whitespace restriction). -/
def trimStart (l : Input) : Input := l.dropWhile isSpaceChar

/-- Rust `str::trim` (ASCII whitespace restriction). -/
def trimBoth (l : Input) : Input :=
  ((l.dropWhile isSpaceChar).reverse.dropWhile isSpaceChar).reverse

/-! ## `src/curl/parser/common.rs` -/

/-- `common::is_curl`: left-trim, ASCII-lowercase, check the `curl` prefix. -/
def is_curl (input : Input) : Bool :=
  "curl".toList.isPrefixOf ((trimStart input).map asciiLower)

/-- `common::remove_curl_cmd_header`: strip the 4-character `curl` prefix
(case-insensitively) from the left-trimmed input, else return it unchanged. -/
def remove_curl_cmd_header (input : Input) : Input :=
  let trimmed := trimStart input
  if 4 ≤ trimmed.length ∧ (trimmed.take 4).map asciiLower = "curl".toList then
    trimmed.drop 4
  else
    trimmed

/-- `common::slash_line_ending`: `multispace0`, a backslash, `multispace0`.
The recognized text is never used by a caller, so the value is `Unit`. -/
def slash_line_ending (input : Input) : PRes Unit :=
  match input.dropWhile isSpaceChar with
  | '\\' :: rest => .ok (rest.dropWhile isSpaceChar) ()
  | _ => .err

/-- Body shared by the two quoted parsers: skip whitespace, require the
quote `q`, take everything up to the next `q` (recoverable error when no
closing quote exists), consume it, skip trailing whitespace. -/
def quotedBy (q : Char) (input : Input) : PRes Input :=
  match input.dropWhile isSpaceChar with
  | c :: rest =>
    if c = q then
      if rest.any (· = q) then
        .ok (((rest.dropWhile (· ≠ q)).drop 1).dropWhile isSpaceChar)
          (rest.takeWhile (· ≠ q))
      else .err
    else .err
  | [] => .err

/-- `common::double_quoted_data_parse`. -/
def double_quoted_data_parse (input : Input) : PRes Input := quotedBy '"' input

/-- `common::single_quoted_data_parse`. -/
def single_quoted_data_parse (input : Input) : PRes Input := quotedBy '\'' input

/-- `common::quoted_data_parse`: run both quoted parsers; when both succeed
keep the double-quoted result iff its captured content is at least as long,
when one succeeds keep it, and when both fail return `nom::Err::Failure`. -/
def quoted_data_parse (input : Input) : PRes Input :=
  match double_quoted_data_parse input, single_quoted_data_parse input with
  | .ok dr dv, .ok sr sv => if sv.length ≤ dv.length then .ok dr dv else .ok sr sv
  | .ok dr dv, .err => .ok dr dv
  | .ok dr dv, .fail => .ok dr dv
  | .err, .ok sr sv => .ok sr sv
  | .fail, .ok sr sv => .ok sr sv
  | _, _ => .fail

/-! ## `src/curl/config.rs` -/

/-- `config::METHOD_FLAG_IDENTIFIERS`. -/
def METHOD_FLAG_IDENTIFIERS : List Input := ["-X".toList, "--request".toList]

/-- `config::HEADER_FLAG_IDENTIFIERS`. -/
def HEADER_FLAG_IDENTIFIERS : List Input := ["-H".toList, "--header".toList]

/-- `config::DATA_FLAG_IDENTIFIERS`. -/
def DATA_FLAG_IDENTIFIERS : List Input :=
  ["--data-urlencode".toList, "--data-binary".toList, "--data-raw".toList,
   "--data".toList, "-d".toList, "--form-string".toList, "--form".toList, "-F".toList]

/-- `config::FLAG_VALUE_REQUIRED`. -/
def FLAG_VALUE_REQUIRED : List Input :=
  ["--cacert".toList, "--cert".toList, "--cert-type".toList,
   "--connect-timeout".toList, "--cookie".toList, "--cookie-jar".toList,
   "--key".toList, "--key-type".toList, "--limit-rate".toList,
   "--max-time".toList, "--output".toList, "--proxy".toList, "--retry".toList,
   "--retry-delay".toList, "--retry-max-time".toList, "--trace".toList,
   "--trace-ascii".toList, "--user".toList]

/-- `config::SHORT_FLAGS_VALUE_REQUIRED`. -/
def SHORT_FLAGS_VALUE_REQUIRED : List Input := ["-o".toList, "-u".toList, "-x".toList]

/-! ## `src/curl/url.rs` -/

/-- `url::Protocol`. -/
inductive Protocol where
  | Http
  | Https
  | Ftp
  | Smb
  | Other (raw : Input)
  deriving DecidableEq, Repr

/-- `Protocol::as_str`. -/
def Protocol.as_str : Protocol → Input
  | .Http => "http".toList
  | .Https => "https".toList
  | .Ftp => "ftp".toList
  | .Smb => "smb".toList
  | .Other value => value

/-- `impl From<&str> for Protocol`: match on the ASCII-lowercased scheme;
the fallback arm binds the lowercased text, so `Other` stores the scheme
lowercased. -/
def Protocol.fromStr (value : Input) : Protocol :=
  let v := value.map asciiLower
  if v = "http".toList then .Http
  else if v = "https".toList then .Https
  else if v = "ftp".toList then .Ftp
  else if v = "smb".toList then .Smb
  else .Other v

/-- `url::UserInfo`. -/
structure UserInfo where
  username : Input
  password : Option Input
  deriving DecidableEq, Repr

/-- `UserInfo::new`: `None` on an empty username. -/
def UserInfo.new (username : Input) (password : Option Input) : Option UserInfo :=
  if username = [] then none else some ⟨username, password⟩

/-- `UserInfo::from_raw`: split the raw text on the first `:` into
username and optional password (`splitn(2, ':')`). -/
def UserInfo.from_raw (raw : Input) : Option UserInfo :=
  if raw = [] then none
  else
    UserInfo.new (raw.takeWhile (· ≠ ':'))
      (if raw.any (· = ':') then some ((raw.dropWhile (· ≠ ':')).drop 1) else none)

/-- `url::CurlUrl`. -/
structure CurlUrl where
  protocol : Protocol
  userinfo : Option UserInfo
  domain : Input
  uri : Option Input
  queries : Option (List (Input × Input))
  fragment : Option Input
  deriving DecidableEq, Repr

/-- `CurlUrl::new`. -/
def CurlUrl.new (protocol domain : Input) : CurlUrl :=
  ⟨Protocol.fromStr protocol, none, domain, none, none, none⟩

/-- `CurlUrl::set_userinfo`. -/
def CurlUrl.set_userinfo (u : CurlUrl) (userinfo : UserInfo) : CurlUrl :=
  { u with userinfo := some userinfo }

/-- `CurlUrl::set_uri`: an empty path is stored as absence. -/
def CurlUrl.set_uri (u : CurlUrl) (uri : Input) : CurlUrl :=
  { u with uri := if uri = [] then none else some uri }

/-- `CurlUrl::set_queries`: an empty pair list is stored as absence. -/
def CurlUrl.set_queries (u : CurlUrl) (queries : List (Input × Input)) : CurlUrl :=
  { u with queries := if queries = [] then none else some queries }

/-- `CurlUrl::set_fragment`: an empty fragment is stored as absence. -/
def CurlUrl.set_fragment (u : CurlUrl) (fragment : Input) : CurlUrl :=
  { u with fragment := if fragment = [] then none else some fragment }

/-- One `key=value` query pair as `impl Display for CurlUrl` serializes it. -/
def renderQueryPair (kv : Input × Input) : Input := kv.1 ++ '=' :: kv.2

/-- `impl fmt::Display for CurlUrl`, producing the rendered character list. -/
def CurlUrl.display (u : CurlUrl) : Input :=
  u.protocol.as_str ++ "://".toList ++
  (match u.userinfo with
   | none => []
   | some ui =>
     ui.username ++ (match ui.password with | none => [] | some p => ':' :: p) ++ ['@']) ++
  u.domain ++
  (match u.uri with | none => [] | some uri => uri) ++
  (match u.queries with
   | none => []
   | some qs =>
     if qs = [] then [] else '?' :: List.intercalate ['&'] (qs.map renderQueryPair)) ++
  (match u.fragment with | none => [] | some f => '#' :: f)

/-! ## `src/curl/command.rs` -/

/-- `command::CurlField`. -/
structure CurlField where
  identifier : Input
  data : Option Input
  deriving DecidableEq, Repr

/-- `command::CurlToken`. -/
inductive CurlToken where
  | Method (field : CurlField)
  | Url (url : CurlUrl)
  | Header (field : CurlField)
  | Data (field : CurlField)
  | Flag (field : CurlField)
  deriving DecidableEq, Repr

/-- `CurlToken::new`: classify `identifier` through the config tables; the
method/header payload is trimmed, the data payload is kept verbatim. -/
def CurlToken.new (identifier param : Input) : Option CurlToken :=
  if trimBoth param = [] then none
  else if METHOD_FLAG_IDENTIFIERS.contains identifier then
    some (.Method ⟨"-X".toList, some (trimBoth param)⟩)
  else if HEADER_FLAG_IDENTIFIERS.contains identifier then
    some (.Header ⟨"-H".toList, some (trimBoth param)⟩)
  else if DATA_FLAG_IDENTIFIERS.contains identifier then
    some (.Data ⟨"-d".toList, some param⟩)
  else none

/-- `CurlToken::new_flag_with_value`. -/
def CurlToken.new_flag_with_value (identifier : Input) (value : Option Input) :
    Option CurlToken :=
  let trimmed := trimBoth identifier
  if trimmed = [] then none
  else
    some (.Flag ⟨trimmed,
      match value with
      | some v => if trimBoth v = [] then none else some (trimBoth v)
      | none => none⟩)

/-- `CurlToken::new_flag`. -/
def CurlToken.new_flag (identifier : Input) : Option CurlToken :=
  CurlToken.new_flag_with_value identifier none

/-- `CurlToken::data` (payload of method/header/data tokens). -/
def CurlToken.data : CurlToken → Option Input
  | .Method f | .Header f | .Data f => f.data
  | _ => none

/-- `CurlToken::expects_value`: membership in the method/header/data tables. -/
def CurlToken.expects_value (identifier : Input) : Bool :=
  let normalized := trimBoth identifier
  METHOD_FLAG_IDENTIFIERS.contains normalized ||
    HEADER_FLAG_IDENTIFIERS.contains normalized ||
    DATA_FLAG_IDENTIFIERS.contains normalized

/-- `CurlToken::flag_requires_value`: membership in the value-required tables. -/
def CurlToken.flag_requires_value (identifier : Input) : Bool :=
  let normalized := trimBoth identifier
  FLAG_VALUE_REQUIRED.contains normalized ||
    SHORT_FLAGS_VALUE_REQUIRED.contains normalized

/-! ## `src/curl/parser/url.rs` -/

/-- nom `opt`: catch a recoverable error (consuming nothing), propagate a
hard failure. -/
def optP {α : Type} (p : Input → PRes α) (input : Input) : PRes (Option α) :=
  match p input with
  | .ok rest v => .ok rest (some v)
  | .err => .ok input none
  | .fail => .fail

/-- `url::protocol_parse`: `multispace0`, `alpha1`, `alphanumeric0`, `:`,
`//`; the value is the concatenated scheme text. -/
def protocol_parse (input : Input) : PRes Input :=
  let l := input.dropWhile isSpaceChar
  let p1 := l.takeWhile isAsciiAlpha
  if p1 = [] then .err
  else
    let r1 := l.dropWhile isAsciiAlpha
    let p2 := r1.takeWhile isAsciiAlphanum
    match r1.dropWhile isAsciiAlphanum with
    | ':' :: '/' :: '/' :: rest => .ok rest (p1 ++ p2)
    | _ => .err

/-- `url::credentials_domain_parse`: `take_till(c == '/')`, never fails. -/
def credentials_domain_parse (input : Input) : PRes Input :=
  .ok (input.dropWhile (· ≠ '/')) (input.takeWhile (· ≠ '/'))

/-- `url::credentials_domain_to_userinfo_parse`: split at the first `@`
(`str::find`); hard failure when no `@` is present. -/
def credentials_domain_to_userinfo_parse (input : Input) : PRes Input :=
  if input.any (· = '@') then
    .ok ((input.dropWhile (· ≠ '@')).drop 1) (input.takeWhile (· ≠ '@'))
  else .fail

/-- `url::credentials_domain_to_host_parse`: at the first `@` the host is
what follows; with no `@` the whole segment is the host. -/
def credentials_domain_to_host_parse (input : Input) : PRes Input :=
  if input.any (· = '@') then
    .ok (input.takeWhile (· ≠ '@')) ((input.dropWhile (· ≠ '@')).drop 1)
  else .ok [] input

/-- `url::uri_parse`: `take_till(c == '?')`, never fails. -/
def uri_parse (input : Input) : PRes Input :=
  .ok (input.dropWhile (· ≠ '?')) (input.takeWhile (· ≠ '?'))

/-- `url::queries_parse`: `take_till(c == '#')`, never fails. -/
def queries_parse (input : Input) : PRes Input :=
  .ok (input.dropWhile (· ≠ '#')) (input.takeWhile (· ≠ '#'))

/-- `url::queries_to_query_fragments`: strip one leading `?`, split on `&`,
drop empty fragments, split each on the first `=` (`splitn(2, '=')`). -/
def queries_to_query_fragments (input : Input) : List (Input × Input) :=
  let queries := match input with | '?' :: rest => rest | _ => input
  ((queries.splitOn '&').filter (· ≠ [])).map fun q =>
    (q.takeWhile (· ≠ '='),
     if q.any (· = '=') then (q.dropWhile (· ≠ '=')).drop 1 else [])

/-- `url::fragment_parse`: `#` followed by `alphanumeric1`. -/
def fragment_parse (input : Input) : PRes Input :=
  match input with
  | '#' :: rest =>
    let f := rest.takeWhile isAsciiAlphanum
    if f = [] then .err else .ok (rest.dropWhile isAsciiAlphanum) f
  | _ => .err

/-- The `map_res` closure body of `url::curl_url_parse`: build the `CurlUrl`
from the five captured pieces (host, then uri/queries/fragment, then
userinfo, in source order). -/
def build_curl_url (protocol credentials : Input) (uri queries : Option Input)
    (fragment : Option Input) : Option CurlUrl :=
  match credentials_domain_to_host_parse credentials with
  | .ok _ host =>
    let u0 := CurlUrl.new protocol host
    let u1 := match uri with | some x => u0.set_uri x | none => u0
    let u2 := match queries with
      | some q => u1.set_queries (queries_to_query_fragments q)
      | none => u1
    let u3 := match fragment with | some f => u2.set_fragment f | none => u2
    let u4 := match credentials_domain_to_userinfo_parse credentials with
      | .ok _ raw =>
        match UserInfo.from_raw raw with
        | some ui => u3.set_userinfo ui
        | none => u3
      | _ => u3
    some u4
  | _ => none

/-- `url::curl_url_parse`: protocol, credentials+domain segment, optional
path, optional query text, optional fragment, folded into a `CurlUrl`
(`map_res` turns a closure error into a recoverable error). -/
def curl_url_parse (input : Input) : PRes CurlUrl :=
  match protocol_parse input with
  | .err => .err
  | .fail => .fail
  | .ok r1 protocol =>
    match credentials_domain_parse r1 with
    | .err => .err
    | .fail => .fail
    | .ok r2 credentials =>
      match optP uri_parse r2 with
      | .err => .err
      | .fail => .fail
      | .ok r3 uri =>
        match optP queries_parse r3 with
        | .err => .err
        | .fail => .fail
        | .ok r4 queries =>
          match optP fragment_parse r4 with
          | .err => .err
          | .fail => .fail
          | .ok r5 fragment =>
            match build_curl_url protocol credentials uri queries fragment with
            | some u => .ok r5 u
            | none => .err

/-! ## `src/curl/parser/command.rs` -/

/-- nom `tag`: consume the literal `t` or fail recoverably. -/
def tagP (t : Input) (l : Input) : Option Input :=
  if t.isPrefixOf l then some (l.drop t.length) else none

/-- nom `alt` over a list of `tag`s: first tag that matches wins, returning
it together with the remainder. -/
def firstTag (tags : List Input) (l : Input) : Option (Input × Input) :=
  match tags with
  | [] => none
  | t :: ts =>
    match tagP t l with
    | some rest => some (t, rest)
    | none => firstTag ts l

/-- The `parse_command!` macro body: optional line continuation,
`multispace0`, one of the tag spellings, `multispace1`, a quoted value,
folded through `CurlToken::new` (`map_res`: a `None` token is a recoverable
error; a hard failure of `quoted_data_parse` aborts). -/
def parse_command_with (tags : List Input) (input : Input) : PRes CurlToken :=
  let l0 := match slash_line_ending input with | .ok r _ => r | _ => input
  let l1 := l0.dropWhile isSpaceChar
  match firstTag tags l1 with
  | none => .err
  | some (tg, l2) =>
    match l2 with
    | [] => .err
    | c :: _ =>
      if isSpaceChar c then
        match quoted_data_parse (l2.dropWhile isSpaceChar) with
        | .ok r data =>
          match CurlToken.new tg data with
          | some tok => .ok r tok
          | none => .err
        | .err => .err
        | .fail => .fail
      else .err

/-- `parse_command!(method_parse, "-X", "--request")`. -/
def method_parse (input : Input) : PRes CurlToken :=
  parse_command_with ["-X".toList, "--request".toList] input

/-- `parse_command!(header_parse, "-H", "--header")`. -/
def header_parse (input : Input) : PRes CurlToken :=
  parse_command_with ["-H".toList, "--header".toList] input

/-- `parse_command!(data_parse, "-d", "--data", "--data-raw",
"--data-binary", "--data-urlencode")`. -/
def data_parse (input : Input) : PRes CurlToken :=
  parse_command_with
    ["-d".toList, "--data".toList, "--data-raw".toList,
     "--data-binary".toList, "--data-urlencode".toList] input

/-- `command::flag_parse`: optional line continuation, whitespace, then a
`-`/`--`-prefixed identifier of flag characters; identifiers in the
method/header/data tables are refused (`map_res` makes that a recoverable
error), everything else becomes a bare `Flag` token with no value. -/
def flag_parse (input : Input) : PRes CurlToken :=
  let l0 := match slash_line_ending input with | .ok r _ => r | _ => input
  match l0.dropWhile isSpaceChar with
  | '-' :: rest =>
    let dashes : Input := match rest with | '-' :: _ => ['-', '-'] | _ => ['-']
    let rest2 : Input := match rest with | '-' :: r => r | _ => rest
    let body := rest2.takeWhile isFlagChar
    if body = [] then .err
    else
      let flag := dashes ++ body
      if CurlToken.expects_value flag then .err
      else
        match CurlToken.new_flag flag with
        | some tok => .ok (rest2.dropWhile isFlagChar) tok
        | none => .err
  | _ => .err

/-- nom `alt` of two parsers: the second runs only on a recoverable error. -/
def alt2 {α : Type} (p q : Input → PRes α) (l : Input) : PRes α :=
  match p l with
  | .err => q l
  | r => r

/-- `alt((method_parse, header_parse, data_parse, flag_parse))`, the
combined token parser of `commands_parse`. -/
def token_alt (l : Input) : PRes CurlToken :=
  alt2 method_parse (alt2 header_parse (alt2 data_parse flag_parse)) l

/-- nom `fold_many0` accumulating into a list, with nom's no-progress guard
(a successful inner parse that consumes nothing is an error) and fuel that
the guard keeps from running out when `fuel > input length`. A recoverable
inner error stops the loop; a hard failure aborts it. -/
def fold_many0F {α : Type} (p : Input → PRes α) : Nat → Input → PRes (List α)
  | 0, _ => .fail
  | fuel + 1, l =>
    match p l with
    | .fail => .fail
    | .err => .ok l []
    | .ok rest v =>
      if rest.length < l.length then
        match fold_many0F p fuel rest with
        | .ok r acc => .ok r (v :: acc)
        | .err => .err
        | .fail => .fail
      else .err

/-- `command::commands_parse`: `fold_many0` over the combined token parser. -/
def commands_parse (input : Input) : PRes (List CurlToken) :=
  fold_many0F token_alt (input.length + 1) input

/-- `command::url_parse`: whitespace, one quoted argument, parsed as a URL
(`map_res`: a URL parse error is recoverable, a quoting hard failure aborts). -/
def url_parse (input : Input) : PRes CurlToken :=
  match quoted_data_parse (input.dropWhile isSpaceChar) with
  | .ok r data =>
    match curl_url_parse data with
    | .ok _ parsed => .ok r (CurlToken.Url parsed)
    | _ => .err
  | .err => .err
  | .fail => .fail

/-- The part of `command::curl_cmd_parse` after the `is_curl` guard: one URL
token, then the remaining tokens. -/
def curl_cmd_body (trimmed : Input) : PRes (List CurlToken) :=
  match url_parse trimmed with
  | .ok rest urlTok =>
    match commands_parse rest with
    | .ok r additional => .ok r (urlTok :: additional)
    | .err => .err
    | .fail => .fail
  | .err => .err
  | .fail => .fail

/-- `command::curl_cmd_parse`: reject non-curl input with a recoverable
error, else strip the prefix and run the body. -/
def curl_cmd_parse (input : Input) : PRes (List CurlToken) :=
  if is_curl input then curl_cmd_body (remove_curl_cmd_header input)
  else .err

/-! ## `src/curl/request.rs` -/

/-- `request::RequestBuildError`. -/
inductive RequestBuildError where
  | MissingUrl
  deriving DecidableEq, Repr

/-- `request::ParseError`: the nom variant's message is dropped. -/
inductive ParseError where
  | MissingUrl
  | Nom
  deriving DecidableEq, Repr

/-- `request::ParsedRequest`. -/
structure ParsedRequest where
  url : CurlUrl
  method : Option Input
  headers : List Input
  data : List Input
  flags : List Input
  tokens : List CurlToken
  deriving DecidableEq, Repr

/-- The mutable accumulators of `ParsedRequest::try_from_tokens`. -/
structure BuildState where
  url : Option CurlUrl
  method : Option Input
  headers : List Input
  data : List Input
  flags : List Input
  deriving DecidableEq, Repr

/-- One iteration of the token loop in `try_from_tokens`. -/
def build_step (s : BuildState) (token : CurlToken) : BuildState :=
  match token with
  | .Url parsed_url => { s with url := some parsed_url }
  | .Method field => { s with method := field.data }
  | .Header field =>
    match field.data with
    | some value => { s with headers := s.headers ++ [value] }
    | none => s
  | .Data field =>
    match field.data with
    | some value => { s with data := s.data ++ [value] }
    | none => s
  | .Flag field => { s with flags := s.flags ++ [field.identifier] }

/-- `ParsedRequest::try_from_tokens`: fold the loop, then require a URL. -/
def try_from_tokens (tokens : List CurlToken) :
    Except RequestBuildError ParsedRequest :=
  let s := tokens.foldl build_step ⟨none, none, [], [], []⟩
  match s.url with
  | none => .error .MissingUrl
  | some url => .ok ⟨url, s.method, s.headers, s.data, s.flags, tokens⟩

/-- `request::parse_curl_command`. -/
def parse_curl_command (input : Input) : Except ParseError ParsedRequest :=
  match curl_cmd_parse input with
  | .ok _ tokens =>
    match try_from_tokens tokens with
    | .ok r => .ok r
    | .error .MissingUrl => .error .MissingUrl
  | _ => .error .Nom

/-! ## Helper lemmas about `takeWhile`, `dropWhile` and first-occurrence splits -/

/-- Splitting a list at a marked element: `takeWhile` keeps the part before
it when every element there satisfies `p` and the marker does not. -/
theorem takeWhile_split_first {p : Char → Bool} {a : Input} {c : Char} (b : Input)
    (ha : ∀ x ∈ a, p x = true) (hc : p c = false) :
    (a ++ c :: b).takeWhile p = a ∧ (a ++ c :: b).dropWhile p = c :: b := by
  induction a with
  | nil => simp [List.takeWhile, List.dropWhile, hc]
  | cons x xs ih =>
    have hx : p x = true := ha x (List.mem_cons_self x xs)
    have ihs := ih fun y hy => ha y (List.mem_cons_of_mem x hy)
    simp [List.takeWhile, List.dropWhile, hx, ihs.1, ihs.2]

/-- First-occurrence decomposition: if `c ∈ l` then `l` splits as the
`(· ≠ c)`-prefix, `c`, and a tail that is what `dropWhile` leaves after `c`. -/
theorem split_first_mem {c : Char} {l : Input} (h : c ∈ l) :
    ∃ b : Input, l.dropWhile (· ≠ c) = c :: b ∧
      l = l.takeWhile (· ≠ c) ++ c :: b ∧ c ∉ l.takeWhile (· ≠ c) := by
  induction l with
  | nil => cases h
  | cons x xs ih =>
    by_cases hx : x = c
    · subst hx
      refine ⟨xs, ?_, ?_, ?_⟩ <;> simp [List.dropWhile, List.takeWhile]
    · rcases List.mem_cons.mp h with h1 | h2
      · exact absurd h1.symm hx
      · rcases ih h2 with ⟨b, hb1, hb2, hb3⟩
        refine ⟨b, ?_, ?_, ?_⟩
        · simpa [List.dropWhile, hx] using hb1
        · simpa [List.takeWhile, hx] using congrArg (x :: ·) hb2
        · have hdx : (decide (x ≠ c)) = true := by simp [hx]
          simp only [List.takeWhile, hdx, List.mem_cons, not_or]
          exact ⟨fun h' => hx h'.symm, hb3⟩

/-! ## Claim C1 -/

/-- C1: the spec's concrete scenario
`curl 'https://example.com' -H 'A:1' --data name=value --insecure` is claimed
to parse into 4 tokens with `data == ["name=value"]`.  The code disagrees:
`data_parse` demands a quoted value, `quoted_data_parse` raises a hard
failure on the unquoted `name=value`, and the whole parse returns an error.
This theorem records the code's actual behaviour at that input. -/
theorem c1_unquoted_data_hard_failure :
    parse_curl_command
        ("curl 'https://example.com' -H 'A:1' --data name=value --insecure".toList) =
      .error .Nom ∧
    data_parse ("--data name=value --insecure".toList) = .fail :=
  ⟨rfl, rfl⟩

/-! ## Claim C2 -/

/-- C2 counterexample: on the segment `a@b@c` the claim (split at the last
`@`) predicts userinfo `a@b` and host `c`; the code splits at the first `@`,
yielding userinfo `a` and host `b@c`. -/
theorem c2_counterexample :
    credentials_domain_to_userinfo_parse ("a@b@c".toList) =
      .ok ("b@c".toList) ("a".toList) ∧
    credentials_domain_to_host_parse ("a@b@c".toList) =
      .ok ("a".toList) ("b@c".toList) ∧
    ("a".toList ≠ "a@b".toList ∧ "b@c".toList ≠ "c".toList) := by
  decide

/-- C2 as amended: every credentials+domain segment containing an `@` is
split at the FIRST `@` occurrence — everything before it is the userinfo,
everything after it the host — and a segment with no `@` is all host, with
the userinfo parser failing. -/
theorem c2_split_at_first_at :
    (∀ a b : Input, '@' ∉ a →
      credentials_domain_to_userinfo_parse (a ++ '@' :: b) = .ok b a ∧
      credentials_domain_to_host_parse (a ++ '@' :: b) = .ok a b) ∧
    (∀ l : Input, '@' ∉ l →
      credentials_domain_to_userinfo_parse l = .fail ∧
      credentials_domain_to_host_parse l = .ok [] l) := by
  constructor
  · intro a b ha
    have hmem : ((a ++ '@' :: b).any (· = '@')) = true := by
      simp [List.any_eq_true]
    have hsplit := takeWhile_split_first (p := fun x => decide (x ≠ '@')) (c := '@') b
      (fun x hx => decide_eq_true (show x ≠ '@' from fun hc => ha (hc ▸ hx)))
      (by simp)
    simp only [decide_not] at hsplit
    constructor
    · simp [credentials_domain_to_userinfo_parse, hmem, hsplit.1, hsplit.2]
    · simp [credentials_domain_to_host_parse, hmem, hsplit.1, hsplit.2]
  · intro l hl
    have hmem : (l.any (· = '@')) = false := by
      rw [Bool.eq_false_iff]
      intro hc
      rcases List.any_eq_true.mp hc with ⟨x, hx, hx'⟩
      exact hl ((decide_eq_true_eq.mp hx') ▸ hx)
    constructor
    · simp [credentials_domain_to_userinfo_parse, hmem]
    · simp [credentials_domain_to_host_parse, hmem]

/-- C2 witness: the amended split at a concrete segment `user:pw@host.com`. -/
theorem c2_witness :
    credentials_domain_to_userinfo_parse ("user:pw@host.com".toList) =
      .ok ("host.com".toList) ("user:pw".toList) ∧
    credentials_domain_to_host_parse ("user:pw@host.com".toList) =
      .ok ("user:pw".toList) ("host.com".toList) :=
  c2_split_at_first_at.1 ("user:pw".toList) ("host.com".toList) (by decide)

/-! ## Claim C3 -/

/-- C3: the claim (and the repository's own tests) say that `flag_parse`
fails on `--retry   --compressed` because `--retry` is in the value-required
table and the next token is flag-shaped.  The code's `flag_parse` only
consults `expects_value` (the method/header/data tables), never
`flag_requires_value`, so it happily returns a bare `--retry` flag token.
This theorem records that behaviour, together with the table membership the
claim appeals to. -/
theorem c3_value_required_flag_parses_as_bare_flag :
    flag_parse (" --retry   --compressed".toList) =
      .ok ("   --compressed".toList) (CurlToken.Flag ⟨"--retry".toList, none⟩) ∧
    CurlToken.flag_requires_value ("--retry".toList) = true := by
  decide

/-! ## Claim C6 -/

/-- C6 counterexample: the claim says an unrecognized scheme is preserved
with its original character case; the code's `From<&str>` binds the
ASCII-lowercased text in the fallback arm, so `ABC` is stored as `abc`,
both in `Protocol::from` and in a full URL parse. -/
theorem c6_counterexample :
    Protocol.fromStr ("ABC".toList) = .Other ("abc".toList) ∧
    "abc".toList ≠ "ABC".toList ∧
    curl_url_parse ("ABC://h".toList) =
      .ok [] ⟨.Other ("abc".toList), none, "h".toList, none, none, none⟩ := by
  decide

/-- C6 as amended: scheme recognition is ASCII-case-insensitive for the four
known schemes, and every other scheme is stored as the `Other` variant
carrying the scheme text LOWERCASED (not case-preserved). -/
theorem c6_protocol_lowercased :
    ∀ s : Input,
      (s.map asciiLower = "http".toList → Protocol.fromStr s = .Http) ∧
      (s.map asciiLower = "https".toList → Protocol.fromStr s = .Https) ∧
      (s.map asciiLower = "ftp".toList → Protocol.fromStr s = .Ftp) ∧
      (s.map asciiLower = "smb".toList → Protocol.fromStr s = .Smb) ∧
      (s.map asciiLower ≠ "http".toList → s.map asciiLower ≠ "https".toList →
        s.map asciiLower ≠ "ftp".toList → s.map asciiLower ≠ "smb".toList →
        Protocol.fromStr s = .Other (s.map asciiLower)) := by
  intro s
  refine ⟨?_, ?_, ?_, ?_, ?_⟩
  · intro h
    simp only [Protocol.fromStr]
    rw [h]
    decide
  · intro h
    simp only [Protocol.fromStr]
    rw [h]
    decide
  · intro h
    simp only [Protocol.fromStr]
    rw [h]
    decide
  · intro h
    simp only [Protocol.fromStr]
    rw [h]
    decide
  · intro h1 h2 h3 h4
    simp only [Protocol.fromStr]
    rw [if_neg h1, if_neg h2, if_neg h3, if_neg h4]

/-- C6 witness: the amended behaviour at `SMB` (recognized, case-folded)
and at `wEird2` (unrecognized, stored lowercased). -/
theorem c6_witness :
    Protocol.fromStr ("SMB".toList) = .Smb ∧
    Protocol.fromStr ("wEird2".toList) = .Other ("weird2".toList) :=
  ⟨(c6_protocol_lowercased ("SMB".toList)).2.2.2.1 (by decide),
   (c6_protocol_lowercased ("wEird2".toList)).2.2.2.2
     (by decide) (by decide) (by decide) (by decide)⟩

/-! ## Claim C7 -/

/-- C7: `quoted_data_parse` disambiguation — when both quoted parses
succeed the strictly longer captured content wins (the double-quoted result
is kept on a tie, which the claim permits), when exactly one succeeds that
one is returned, and when both fail the parser raises a hard failure. -/
theorem c7_quoted_disambiguation (input : Input) :
    (∀ r1 v1 r2 v2, double_quoted_data_parse input = .ok r1 v1 →
      single_quoted_data_parse input = .ok r2 v2 →
      (v2.length < v1.length → quoted_data_parse input = .ok r1 v1) ∧
      (v1.length < v2.length → quoted_data_parse input = .ok r2 v2)) ∧
    (∀ r1 v1, double_quoted_data_parse input = .ok r1 v1 →
      (single_quoted_data_parse input).notOk →
      quoted_data_parse input = .ok r1 v1) ∧
    (∀ r2 v2, single_quoted_data_parse input = .ok r2 v2 →
      (double_quoted_data_parse input).notOk →
      quoted_data_parse input = .ok r2 v2) ∧
    ((double_quoted_data_parse input).notOk →
      (single_quoted_data_parse input).notOk →
      quoted_data_parse input = .fail) := by
  refine ⟨?_, ?_, ?_, ?_⟩
  · intro r1 v1 r2 v2 h1 h2
    constructor <;> intro hlen <;> simp only [quoted_data_parse, h1, h2]
    · rw [if_pos (Nat.le_of_lt hlen)]
    · rw [if_neg (by omega)]
  · intro r1 v1 h1 h2
    cases hs : single_quoted_data_parse input <;> rw [hs] at h2 <;>
      simp only [PRes.notOk] at h2 <;> simp [quoted_data_parse, h1, hs]
  · intro r2 v2 h2 h1
    cases hd : double_quoted_data_parse input <;> rw [hd] at h1 <;>
      simp only [PRes.notOk] at h1 <;> simp [quoted_data_parse, h2, hd]
  · intro h1 h2
    cases hd : double_quoted_data_parse input <;> rw [hd] at h1 <;>
      simp only [PRes.notOk] at h1 <;>
      cases hs : single_quoted_data_parse input <;> rw [hs] at h2 <;>
        simp only [PRes.notOk] at h2 <;> simp [quoted_data_parse, hd, hs]

/-- C7 witness: at `"ab" rest` only the double-quoted parse succeeds and its
result is returned. -/
theorem c7_witness :
    quoted_data_parse ("\"ab\" rest".toList) = .ok ("rest".toList) ("ab".toList) :=
  (c7_quoted_disambiguation ("\"ab\" rest".toList)).2.1
    ("rest".toList) ("ab".toList) (by decide) (by decide)

/-! ## Claims C8 and C9: the request builder folds -/

/-- Data of the last `Method` token of a sequence (`none` when there is no
`Method` token, or when the last one carries no data). -/
def last_method_data (tokens : List CurlToken) : Option Input :=
  tokens.foldl (fun acc t => match t with | .Method f => f.data | _ => acc) none

/-- URL of the last `Url` token of a sequence. -/
def last_url (tokens : List CurlToken) : Option CurlUrl :=
  tokens.foldl (fun acc t => match t with | .Url u => some u | _ => acc) none

/-- Number of `Url` tokens in a sequence. -/
def count_urls (tokens : List CurlToken) : Nat :=
  tokens.countP (fun t => match t with | .Url _ => true | _ => false)

/-- The `method` accumulator of the builder loop only ever reacts to
`Method` tokens. -/
theorem build_method_foldl (tokens : List CurlToken) :
    ∀ s : BuildState,
      (tokens.foldl build_step s).method =
        tokens.foldl (fun acc t => match t with | .Method f => f.data | _ => acc)
          s.method := by
  induction tokens with
  | nil => intro s; rfl
  | cons t ts ih =>
    intro s
    rw [List.foldl_cons, List.foldl_cons, ih]
    congr 1
    cases t with
    | Method f => rfl
    | Url u => rfl
    | Header f => cases f with | mk i d => cases d <;> rfl
    | Data f => cases f with | mk i d => cases d <;> rfl
    | Flag f => rfl

/-- The `url` accumulator of the builder loop only ever reacts to `Url`
tokens. -/
theorem build_url_foldl (tokens : List CurlToken) :
    ∀ s : BuildState,
      (tokens.foldl build_step s).url =
        tokens.foldl (fun acc t => match t with | .Url u => some u | _ => acc)
          s.url := by
  induction tokens with
  | nil => intro s; rfl
  | cons t ts ih =>
    intro s
    rw [List.foldl_cons, List.foldl_cons, ih]
    congr 1
    cases t with
    | Method f => rfl
    | Url u => rfl
    | Header f => cases f with | mk i d => cases d <;> rfl
    | Data f => cases f with | mk i d => cases d <;> rfl
    | Flag f => rfl

/-- C8: whenever `try_from_tokens` succeeds, the request's method is the
data of the last `Method` token (every later `Method` token overwrites the
earlier ones); and concretely, parsing a command that carries `-X 'GET'`
followed by `-X 'POST'` yields `method == Some "POST"`. -/
theorem c8_last_method_wins :
    (∀ tokens req, try_from_tokens tokens = .ok req →
      req.method = last_method_data tokens) ∧
    (parse_curl_command ("curl 'http://a.com' -X 'GET' -X 'POST'".toList)).toOption.map
        ParsedRequest.method = some (some ("POST".toList)) := by
  constructor
  · intro tokens req h
    simp only [try_from_tokens] at h
    cases hu : (tokens.foldl build_step ⟨none, none, [], [], []⟩).url with
    | none => rw [hu] at h; simp at h
    | some u =>
      rw [hu] at h
      injection h with h'
      rw [← h']
      exact build_method_foldl tokens ⟨none, none, [], [], []⟩
  · rfl

/-- C8 witness: the general last-method-wins law applied to a concrete token
sequence with two `Method` tokens. -/
theorem c8_witness :
    (ParsedRequest.mk (CurlUrl.new ("http".toList) ("a.com".toList))
        (some ("POST".toList)) [] [] []
        [CurlToken.Method ⟨"-X".toList, some ("GET".toList)⟩,
         CurlToken.Url (CurlUrl.new ("http".toList) ("a.com".toList)),
         CurlToken.Method ⟨"-X".toList, some ("POST".toList)⟩]).method =
      last_method_data
        [CurlToken.Method ⟨"-X".toList, some ("GET".toList)⟩,
         CurlToken.Url (CurlUrl.new ("http".toList) ("a.com".toList)),
         CurlToken.Method ⟨"-X".toList, some ("POST".toList)⟩] :=
  c8_last_method_wins.1 _ _ rfl

/-- C9: a token sequence with more than one `Url` token is not rejected —
`try_from_tokens` returns `Ok` and the request's `url` is the URL of the
last `Url` token, the earlier ones being silently overwritten. -/
theorem c9_last_url_wins :
    ∀ tokens u, 2 ≤ count_urls tokens → last_url tokens = some u →
      ∃ req, try_from_tokens tokens = .ok req ∧ req.url = u := by
  intro tokens u _ hu
  have h := build_url_foldl tokens ⟨none, none, [], [], []⟩
  simp only [try_from_tokens]
  rw [show (tokens.foldl build_step ⟨none, none, [], [], []⟩).url = some u from
    h.trans hu]
  exact ⟨_, rfl, rfl⟩

/-- C9 witness: two `Url` tokens; the second one ends up in the request. -/
theorem c9_witness :
    ∃ req,
      try_from_tokens
          [CurlToken.Url (CurlUrl.new ("http".toList) ("a.com".toList)),
           CurlToken.Url (CurlUrl.new ("http".toList) ("b.com".toList))] = .ok req ∧
      req.url = CurlUrl.new ("http".toList) ("b.com".toList) :=
  c9_last_url_wins _ _ (by decide) (by decide)

/-! ## Claim C5 -/

/-- C5 counterexample: `curl 'http://a.com' -H x` has a valid curl prefix
and a parsable URL argument, yet `curl_cmd_parse` fails hard — the trailing
` -H x` makes `header_parse` call `quoted_data_parse` on the unquoted `x`,
whose hard failure aborts the whole fold.  This refutes "trailing unmatched
text never causes the whole parse to fail". -/
theorem c5_counterexample :
    is_curl ("curl 'http://a.com' -H x".toList) = true ∧
    (url_parse (remove_curl_cmd_header ("curl 'http://a.com' -H x".toList))).isOk ∧
    curl_cmd_parse ("curl 'http://a.com' -H x".toList) = .fail := by
  refine ⟨by decide, by decide, by decide⟩

/-- C5 as amended: after the curl prefix and the URL token, the token fold
has zero-or-more semantics for RECOVERABLE errors — if the combined token
parser fails recoverably at the very first position the parse succeeds with
just the URL token and the remainder unconsumed, and whenever the fold
succeeds the whole parse succeeds with the URL token prepended and the
remainder unconsumed — but a hard failure of the fold aborts the whole
parse. -/
theorem c5_zero_or_more_soft_stop :
    ∀ input rest urlTok, is_curl input = true →
      url_parse (remove_curl_cmd_header input) = .ok rest urlTok →
      (token_alt rest = .err → curl_cmd_parse input = .ok rest [urlTok]) ∧
      (∀ rest2 toks, commands_parse rest = .ok rest2 toks →
        curl_cmd_parse input = .ok rest2 (urlTok :: toks)) ∧
      (commands_parse rest = .fail → curl_cmd_parse input = .fail) := by
  intro input rest urlTok hc hu
  have hbody : curl_cmd_parse input = curl_cmd_body (remove_curl_cmd_header input) := by
    simp [curl_cmd_parse, hc]
  refine ⟨?_, ?_, ?_⟩
  · intro he
    have hcp : commands_parse rest = .ok rest [] := by
      unfold commands_parse fold_many0F
      rw [he]
    rw [hbody]
    simp only [curl_cmd_body, hu, hcp]
  · intro rest2 toks hcp
    rw [hbody]
    simp only [curl_cmd_body, hu, hcp]
  · intro hcp
    rw [hbody]
    simp only [curl_cmd_body, hu, hcp]

/-- C5 witness: with unmatched trailing text `hello` (a recoverable error
for every token parser) the parse succeeds, returning the URL token and
leaving `hello` unconsumed. -/
theorem c5_witness :
    curl_cmd_parse ("curl 'http://a.com' hello".toList) =
      .ok ("hello".toList)
        [CurlToken.Url (CurlUrl.new ("http".toList) ("a.com".toList))] :=
  (c5_zero_or_more_soft_stop ("curl 'http://a.com' hello".toList)
    ("hello".toList) (CurlToken.Url (CurlUrl.new ("http".toList) ("a.com".toList)))
    (by decide) (by decide)).1 (by decide)

/-! ## Claim C10 -/

/-- C10: `is_curl` and `remove_curl_cmd_header` treat any word beginning
with `curl` (case-insensitively) as the curl command: for every such input
`is_curl` is true and exactly the four prefix characters are stripped, so
`curl_cmd_parse` never rejects it as not-a-curl-command but hands the rest
of the word to the URL-argument stage.  Concretely, `curly 'http://a.com'`
passes the guard, strips to `y 'http://a.com'`, and then fails in the URL
stage with a hard failure (`.fail`) — not with the guard's recoverable
rejection (`.err`). -/
theorem c10_curl_prefix_loose :
    (∀ l : Input, "curl".toList.isPrefixOf ((trimStart l).map asciiLower) = true →
      is_curl l = true ∧
      remove_curl_cmd_header l = (trimStart l).drop 4 ∧
      curl_cmd_parse l = curl_cmd_body (remove_curl_cmd_header l)) ∧
    (is_curl ("curly 'http://a.com'".toList) = true ∧
     remove_curl_cmd_header ("curly 'http://a.com'".toList) = "y 'http://a.com'".toList ∧
     curl_cmd_parse ("curly 'http://a.com'".toList) = .fail) := by
  constructor
  · intro l h
    obtain ⟨t, ht⟩ := List.isPrefixOf_iff_prefix.mp h
    have hlen : 4 ≤ (trimStart l).length := by
      have hl := congrArg List.length ht
      simp only [List.length_append, List.length_map] at hl
      rw [show ("curl".toList).length = 4 from rfl] at hl
      omega
    have htake : ((trimStart l).take 4).map asciiLower = "curl".toList := by
      rw [List.map_take, ← ht]
      rfl
    refine ⟨h, ?_, ?_⟩
    · simp only [remove_curl_cmd_header]
      rw [if_pos ⟨hlen, htake⟩]
    · have h' : is_curl l = true := h
      unfold curl_cmd_parse
      rw [if_pos h']
  · exact ⟨by decide, by decide, by decide⟩

/-- C10 witness: the loose prefix rule at `curlfoo 'http://a.com'`. -/
theorem c10_witness :
    is_curl ("curlfoo 'http://a.com'".toList) = true ∧
    remove_curl_cmd_header ("curlfoo 'http://a.com'".toList) =
      "foo 'http://a.com'".toList ∧
    curl_cmd_parse ("curlfoo 'http://a.com'".toList) =
      curl_cmd_body ("foo 'http://a.com'".toList) := by
  have h := c10_curl_prefix_loose.1 ("curlfoo 'http://a.com'".toList) (by decide)
  exact ⟨h.1, h.2.1, by rw [h.2.2, h.2.1]; rfl⟩

/-! ## Claim C4: support lemmas -/

/-- Scanning stops no later than a marker that fails the predicate:
`takeWhile`/`dropWhile` on `l ++ c :: T` never look past `c`. -/
theorem takeWhile_append_total (p : Char → Bool) (l T : Input) (c : Char)
    (hc : p c = false) :
    (l ++ c :: T).takeWhile p = l.takeWhile p ∧
    (l ++ c :: T).dropWhile p = l.dropWhile p ++ c :: T := by
  induction l with
  | nil => simp [List.takeWhile, List.dropWhile, hc]
  | cons x xs ih =>
    cases hx : p x <;>
      simp [List.takeWhile_cons, List.dropWhile_cons, hx, ih.1, ih.2]

/-- An ASCII letter is not a `multispace` character. -/
theorem alpha_not_space (c : Char) (h : isAsciiAlpha c = true) :
    isSpaceChar c = false := by
  simp only [isAsciiAlpha, Bool.or_eq_true, Bool.and_eq_true,
    decide_eq_true_eq] at h
  simp only [isSpaceChar, Bool.or_eq_false_iff, decide_eq_false_iff_not]
  omega

/-- `protocol_parse` on a rendered `scheme://tail` input: the scheme is
recovered whole and the remaining input starts right after `://`. -/
theorem protocol_parse_render (ch : Char) (stail R : Input)
    (hhead : isAsciiAlpha ch = true)
    (hall : ∀ x ∈ ch :: stail, isAsciiAlphanum x = true) :
    protocol_parse ((ch :: stail) ++ ':' :: '/' :: '/' :: R) =
      .ok R (ch :: stail) := by
  have hnospace : ((ch :: stail) ++ ':' :: '/' :: '/' :: R).dropWhile isSpaceChar =
      (ch :: stail) ++ ':' :: '/' :: '/' :: R := by
    simp [List.dropWhile_cons, alpha_not_space ch hhead]
  have hcolon_alpha : isAsciiAlpha ':' = false := by decide
  have hcolon_alnum : isAsciiAlphanum ':' = false := by decide
  have htw := takeWhile_append_total isAsciiAlpha (ch :: stail)
    ('/' :: '/' :: R) ':' hcolon_alpha
  have halnum_drop : ∀ x ∈ (ch :: stail).dropWhile isAsciiAlpha,
      isAsciiAlphanum x = true :=
    fun x hx => hall x ((List.dropWhile_sublist isAsciiAlpha).subset hx)
  have htw2 := takeWhile_append_total isAsciiAlphanum
    ((ch :: stail).dropWhile isAsciiAlpha) ('/' :: '/' :: R) ':' hcolon_alnum
  have htake_ne : (ch :: stail).takeWhile isAsciiAlpha =
      ch :: stail.takeWhile isAsciiAlpha := by
    simp [List.takeWhile_cons, hhead]
  simp only [protocol_parse, hnospace, htw.1, htw.2, htake_ne, htw2.1, htw2.2,
    List.takeWhile_eq_self_iff.mpr halnum_drop,
    List.dropWhile_eq_nil_iff.mpr halnum_drop, List.nil_append,
    List.cons_ne_nil, if_false, reduceCtorEq, ite_false]
  rw [← htake_ne, List.takeWhile_append_dropWhile]

/-- Rendering the protocol back: a scheme that is already all-lowercase is
reproduced exactly, whether it is one of the four recognized schemes or the
`Other` fallback. -/
theorem fromStr_as_str (sch : Input) (h : sch.map asciiLower = sch) :
    (Protocol.fromStr sch).as_str = sch := by
  simp only [Protocol.fromStr, h]
  split_ifs with h1 h2 h3 h4
  · rw [Protocol.as_str, ← h1]
  · rw [Protocol.as_str, ← h2]
  · rw [Protocol.as_str, ← h3]
  · rw [Protocol.as_str, ← h4]
  · rfl

/-- The path chunk of `Display`: an empty path is stored as `none` and
rendered as nothing, so the chunk always reproduces the captured text. -/
theorem uri_field_chunk (uri : Input) :
    (match (if uri = [] then none else some uri : Option Input) with
     | none => [] | some x => x) = uri := by
  by_cases h : uri = [] <;> simp [h]

/-- The query chunk of `Display` reproduces the captured query text exactly
when that text is empty or is `?` followed by `&`-separated nonempty
fragments that each contain a `=`. -/
theorem queries_field_chunk (queries : Input)
    (hq : queries = [] ∨ (queries.head? = some '?' ∧
      ∀ part ∈ (queries.drop 1).splitOn '&', part ≠ [] ∧ '=' ∈ part)) :
    (match (if queries_to_query_fragments queries = [] then none
            else some (queries_to_query_fragments queries) :
            Option (List (Input × Input))) with
     | none => []
     | some qs =>
       if qs = [] then [] else '?' :: List.intercalate ['&'] (qs.map renderQueryPair)) =
      queries := by
  rcases hq with hq | ⟨hhd, hparts⟩
  · subst hq
    simp [queries_to_query_fragments]
  · obtain ⟨q, hq_eq⟩ : ∃ q, queries = '?' :: q := by
      cases queries with
      | nil => cases hhd
      | cons x xs => exact ⟨xs, by simpa using congrArg (· :: xs) (Option.some.inj hhd)⟩
    subst hq_eq
    simp only [List.drop_succ_cons, List.drop_zero] at hparts
    have hfilter : (q.splitOn '&').filter (· ≠ []) = q.splitOn '&' :=
      List.filter_eq_self.mpr fun a ha => by
        simpa using (hparts a ha).1
    have hfrag : queries_to_query_fragments ('?' :: q) =
        (q.splitOn '&').map fun p =>
          (p.takeWhile (· ≠ '='),
           if p.any (· = '=') then (p.dropWhile (· ≠ '=')).drop 1 else []) := by
      show ((q.splitOn '&').filter (· ≠ [])).map _ = _
      rw [hfilter]
    have hne : queries_to_query_fragments ('?' :: q) ≠ [] := by
      rw [hfrag]
      intro hcontra
      exact List.splitOnP_ne_nil _ q (List.map_eq_nil_iff.mp hcontra)
    rw [if_neg hne]
    show (if queries_to_query_fragments ('?' :: q) = [] then []
          else '?' :: List.intercalate ['&']
            ((queries_to_query_fragments ('?' :: q)).map renderQueryPair)) = '?' :: q
    rw [if_neg hne]
    have hrender : (queries_to_query_fragments ('?' :: q)).map renderQueryPair =
        q.splitOn '&' := by
      rw [hfrag, List.map_map]
      have : ∀ p ∈ q.splitOn '&',
          (renderQueryPair ∘ fun p =>
            (p.takeWhile (· ≠ '='),
             if p.any (· = '=') then (p.dropWhile (· ≠ '=')).drop 1 else [])) p = p := by
        intro p hp
        obtain ⟨b, hdrop, hp_eq, _⟩ := split_first_mem (hparts p hp).2
        have hany : (p.any (· = '=')) = true :=
          List.any_eq_true.mpr ⟨'=', (hparts p hp).2, by simp⟩
        simp only [Function.comp_apply, renderQueryPair, hany, if_true, hdrop]
        simpa using hp_eq.symm
      rw [List.map_congr_left this]
      exact List.map_id' _
    rw [hrender, List.intercalate_splitOn q '&']

/-- The fragment field that `build_curl_url` stores for a captured optional
fragment (`set_fragment` drops an empty one). -/
def fragment_field (fragment : Option Input) : Option Input :=
  match fragment with
  | some f => if f = [] then none else some f
  | none => none

/-- The fragment text a captured optional fragment should render back to. -/
def fragment_render (fragment : Option Input) : Input :=
  match fragment with
  | none => []
  | some f => '#' :: f

/-- The fragment chunk of `Display` reproduces the captured fragment when it
is nonempty (`set_fragment` would drop an empty one). -/
theorem fragment_field_chunk (fragment : Option Input)
    (hf : ∀ f, fragment = some f → f ≠ []) :
    (match fragment_field fragment with
     | none => [] | some f => '#' :: f) = fragment_render fragment := by
  cases fragment with
  | none => rfl
  | some f =>
    show (match (if f = [] then none else some f : Option Input) with
          | none => ([] : Input) | some x => '#' :: x) = '#' :: f
    rw [if_neg (hf f rfl)]

/-- Building a `CurlUrl` from the captured pieces and rendering it
reproduces `scheme-render ++ "://" ++ segment ++ path ++ query ++ fragment`
whenever the segment's userinfo (when present) has a nonempty username, the
query text is empty or well-shaped, and the fragment (when present) is
nonempty. -/
theorem build_display (protocol seg uri queries : Input) (fragment : Option Input)
    (hseg : '@' ∈ seg → (seg.takeWhile (· ≠ '@') ≠ [] ∧
      (seg.takeWhile (· ≠ '@')).takeWhile (· ≠ ':') ≠ []))
    (hq : queries = [] ∨ (queries.head? = some '?' ∧
      ∀ part ∈ (queries.drop 1).splitOn '&', part ≠ [] ∧ '=' ∈ part))
    (hf : ∀ f, fragment = some f → f ≠ []) :
    ∃ u, build_curl_url protocol seg (some uri) (some queries) fragment = some u ∧
      u.display = (Protocol.fromStr protocol).as_str ++ "://".toList ++ seg ++
        uri ++ queries ++ fragment_render fragment := by
  by_cases hat : '@' ∈ seg
  · have hany : (seg.any (· = '@')) = true :=
      List.any_eq_true.mpr ⟨'@', hat, by simp⟩
    obtain ⟨b, hdrop, hseg_eq, _⟩ := split_first_mem hat
    obtain ⟨hane, huna⟩ := hseg hat
    have hhost : credentials_domain_to_host_parse seg =
        .ok (seg.takeWhile (· ≠ '@')) b := by
      unfold credentials_domain_to_host_parse
      rw [if_pos hany, hdrop]
      rfl
    have huinfo : credentials_domain_to_userinfo_parse seg =
        .ok b (seg.takeWhile (· ≠ '@')) := by
      unfold credentials_domain_to_userinfo_parse
      rw [if_pos hany, hdrop]
      rfl
    by_cases hcol : ':' ∈ seg.takeWhile (· ≠ '@')
    · -- userinfo with password
      have hanyc : ((seg.takeWhile (· ≠ '@')).any (· = ':')) = true :=
        List.any_eq_true.mpr ⟨':', hcol, by simp⟩
      obtain ⟨pa, hpd, ha_eq, _⟩ := split_first_mem hcol
      have hraw : UserInfo.from_raw (seg.takeWhile (· ≠ '@')) =
          some ⟨(seg.takeWhile (· ≠ '@')).takeWhile (· ≠ ':'), some pa⟩ := by
        unfold UserInfo.from_raw UserInfo.new
        rw [if_neg hane, if_pos hanyc, hpd, if_neg huna]
        rfl
      have hbuild : build_curl_url protocol seg (some uri) (some queries) fragment =
          some ⟨Protocol.fromStr protocol,
                some ⟨(seg.takeWhile (· ≠ '@')).takeWhile (· ≠ ':'), some pa⟩,
                b,
                if uri = [] then none else some uri,
                if queries_to_query_fragments queries = [] then none
                  else some (queries_to_query_fragments queries),
                fragment_field fragment⟩ := by
        simp only [build_curl_url, hhost, huinfo, hraw, CurlUrl.new,
          CurlUrl.set_uri, CurlUrl.set_queries, CurlUrl.set_fragment,
          CurlUrl.set_userinfo, fragment_field]
        cases fragment <;> rfl
      refine ⟨_, hbuild, ?_⟩
      simp only [CurlUrl.display]
      rw [uri_field_chunk, queries_field_chunk queries hq,
        fragment_field_chunk fragment hf]
      conv_rhs => rw [hseg_eq, ha_eq]
      simp [List.append_assoc]
    · -- userinfo without password
      have hanyc : ((seg.takeWhile (· ≠ '@')).any (· = ':')) = false := by
        rw [Bool.eq_false_iff]
        intro hc
        rcases List.any_eq_true.mp hc with ⟨x, hx, hx'⟩
        exact hcol ((decide_eq_true_eq.mp hx') ▸ hx)
      have hta : (seg.takeWhile (· ≠ '@')).takeWhile (· ≠ ':') =
          seg.takeWhile (· ≠ '@') :=
        List.takeWhile_eq_self_iff.mpr fun x hx =>
          decide_eq_true (fun hc => hcol (hc ▸ hx))
      have hraw : UserInfo.from_raw (seg.takeWhile (· ≠ '@')) =
          some ⟨seg.takeWhile (· ≠ '@'), none⟩ := by
        unfold UserInfo.from_raw UserInfo.new
        rw [if_neg hane, hanyc]
        simp only [Bool.false_eq_true, if_false, ite_false]
        rw [if_neg huna, hta]
      have hbuild : build_curl_url protocol seg (some uri) (some queries) fragment =
          some ⟨Protocol.fromStr protocol,
                some ⟨seg.takeWhile (· ≠ '@'), none⟩,
                b,
                if uri = [] then none else some uri,
                if queries_to_query_fragments queries = [] then none
                  else some (queries_to_query_fragments queries),
                fragment_field fragment⟩ := by
        simp only [build_curl_url, hhost, huinfo, hraw, CurlUrl.new,
          CurlUrl.set_uri, CurlUrl.set_queries, CurlUrl.set_fragment,
          CurlUrl.set_userinfo, fragment_field]
        cases fragment <;> rfl
      refine ⟨_, hbuild, ?_⟩
      simp only [CurlUrl.display]
      rw [uri_field_chunk, queries_field_chunk queries hq,
        fragment_field_chunk fragment hf]
      conv_rhs => rw [hseg_eq]
      simp [List.append_assoc]
  · -- no userinfo: the whole segment is the host
    have hany : (seg.any (· = '@')) = false := by
      rw [Bool.eq_false_iff]
      intro hc
      rcases List.any_eq_true.mp hc with ⟨x, hx, hx'⟩
      exact hat ((decide_eq_true_eq.mp hx') ▸ hx)
    have hhost : credentials_domain_to_host_parse seg = .ok [] seg := by
      unfold credentials_domain_to_host_parse
      rw [hany]
      simp
    have huinfo : credentials_domain_to_userinfo_parse seg = .fail := by
      unfold credentials_domain_to_userinfo_parse
      rw [hany]
      simp
    have hbuild : build_curl_url protocol seg (some uri) (some queries) fragment =
        some ⟨Protocol.fromStr protocol,
              none,
              seg,
              if uri = [] then none else some uri,
              if queries_to_query_fragments queries = [] then none
                else some (queries_to_query_fragments queries),
              fragment_field fragment⟩ := by
      simp only [build_curl_url, hhost, huinfo, CurlUrl.new,
        CurlUrl.set_uri, CurlUrl.set_queries, CurlUrl.set_fragment, fragment_field]
      cases fragment <;> rfl
    refine ⟨_, hbuild, ?_⟩
    simp only [CurlUrl.display]
    rw [uri_field_chunk, queries_field_chunk queries hq,
      fragment_field_chunk fragment hf]
    simp [List.append_assoc]

/-- The credentials+domain segment the parser captures: everything up to
the first `/` of the text after `://`. -/
def cred_seg (R : Input) : Input := R.takeWhile (· ≠ '/')

/-- The path region: from the first `/` up to the first `?`. -/
def path_reg (R : Input) : Input := (R.dropWhile (· ≠ '/')).takeWhile (· ≠ '?')

/-- The query region: from the first `?` after the path up to the first `#`. -/
def query_reg (R : Input) : Input :=
  ((R.dropWhile (· ≠ '/')).dropWhile (· ≠ '?')).takeWhile (· ≠ '#')

/-- The fragment region: from the first `#` after the query to the end. -/
def frag_reg (R : Input) : Input :=
  ((R.dropWhile (· ≠ '/')).dropWhile (· ≠ '?')).dropWhile (· ≠ '#')

/-! ## Claim C4 -/

/-- C4 counterexample: `HTTP://example.com` is a well-formed URL of the
claimed shape, parses fully, but renders back as `http://example.com` — the
recognized schemes are case-folded, so the round trip is not exact. -/
theorem c4_counterexample :
    curl_url_parse ("HTTP://example.com".toList) =
      .ok [] ⟨.Http, none, "example.com".toList, none, none, none⟩ ∧
    CurlUrl.display ⟨.Http, none, "example.com".toList, none, none, none⟩ =
      "http://example.com".toList ∧
    "http://example.com".toList ≠ "HTTP://example.com".toList := by
  decide

/-- C4 as amended: for every well-formed URL string of the shape
`scheme://[user[:pass]@]host[/path][?k=v&...][#frag]` whose scheme is
written in lowercase — scheme a letter followed by alphanumerics, a
userinfo (when an `@` is present in the authority segment) with nonempty
username, a query region that is empty or `?` followed by nonempty
`&`-separated `key=value` fragments, and a fragment region that is empty or
`#` followed by nonempty alphanumeric text — `curl_url_parse` consumes the
whole string and `Display` reproduces it exactly, absent components being
omitted rather than rendered empty. -/
theorem c4_roundtrip_lower_scheme (ch : Char) (stail R : Input)
    (hhead : isAsciiAlpha ch = true)
    (hsch : ∀ x ∈ ch :: stail, isAsciiAlphanum x = true ∧ asciiLower x = x)
    (hseg : '@' ∈ cred_seg R → ((cred_seg R).takeWhile (· ≠ '@') ≠ [] ∧
      ((cred_seg R).takeWhile (· ≠ '@')).takeWhile (· ≠ ':') ≠ []))
    (hq : query_reg R = [] ∨ ((query_reg R).head? = some '?' ∧
      ∀ part ∈ ((query_reg R).drop 1).splitOn '&', part ≠ [] ∧ '=' ∈ part))
    (hfr : frag_reg R = [] ∨ ((frag_reg R).head? = some '#' ∧
      (frag_reg R).drop 1 ≠ [] ∧
      ∀ x ∈ (frag_reg R).drop 1, isAsciiAlphanum x = true)) :
    ∃ u, curl_url_parse ((ch :: stail) ++ ':' :: '/' :: '/' :: R) = .ok [] u ∧
      u.display = (ch :: stail) ++ ':' :: '/' :: '/' :: R := by
  have hproto := protocol_parse_render ch stail R hhead fun x hx => (hsch x hx).1
  have hmap : (ch :: stail).map asciiLower = ch :: stail := by
    rw [List.map_congr_left (fun x hx => (hsch x hx).2 : ∀ x ∈ ch :: stail,
      asciiLower x = id x)]
    exact List.map_id' _
  obtain ⟨fo, hfragp, hfrender, hfvalid⟩ :
      ∃ fo, optP fragment_parse (frag_reg R) = .ok [] fo ∧
        fragment_render fo = frag_reg R ∧ (∀ f, fo = some f → f ≠ []) := by
    rcases hfr with hfr | ⟨hfh, hfne, hfal⟩
    · exact ⟨none, by rw [hfr]; rfl, by rw [hfr]; rfl, fun f h => by cases h⟩
    · obtain ⟨f, hf_eq⟩ : ∃ f, frag_reg R = '#' :: f := by
        cases hfr_eq : frag_reg R with
        | nil => rw [hfr_eq] at hfh; cases hfh
        | cons x xs =>
          rw [hfr_eq] at hfh
          simp only [List.head?_cons] at hfh
          exact ⟨xs, by rw [Option.some.inj hfh]⟩
      rw [hf_eq] at hfne hfal
      simp only [List.drop_succ_cons, List.drop_zero] at hfne hfal
      have hfp : fragment_parse ('#' :: f) = .ok [] f := by
        show (if f.takeWhile isAsciiAlphanum = [] then PRes.err
              else .ok (f.dropWhile isAsciiAlphanum) (f.takeWhile isAsciiAlphanum)) =
          .ok [] f
        rw [List.takeWhile_eq_self_iff.mpr hfal,
          List.dropWhile_eq_nil_iff.mpr hfal, if_neg hfne]
      refine ⟨some f, ?_, by rw [hf_eq]; rfl, fun g hg => by cases hg; exact hfne⟩
      rw [hf_eq]
      simp only [optP, hfp]
  obtain ⟨u, hbu, hdisp⟩ := build_display (ch :: stail) (cred_seg R)
    (path_reg R) (query_reg R) fo hseg hq hfvalid
  refine ⟨u, ?_, ?_⟩
  · have hopt_uri : ∀ l : Input, optP uri_parse l =
        .ok (l.dropWhile (· ≠ '?')) (some (l.takeWhile (· ≠ '?'))) := fun l => rfl
    have hopt_q : ∀ l : Input, optP queries_parse l =
        .ok (l.dropWhile (· ≠ '#')) (some (l.takeWhile (· ≠ '#'))) := fun l => rfl
    simp only [curl_url_parse, hproto, credentials_domain_parse, hopt_uri, hopt_q,
      show optP fragment_parse
        (((R.dropWhile (· ≠ '/')).dropWhile (· ≠ '?')).dropWhile (· ≠ '#')) =
        .ok [] fo from hfragp,
      show build_curl_url (ch :: stail) (R.takeWhile (· ≠ '/'))
        (some ((R.dropWhile (· ≠ '/')).takeWhile (· ≠ '?')))
        (some (((R.dropWhile (· ≠ '/')).dropWhile (· ≠ '?')).takeWhile (· ≠ '#')))
        fo = some u from hbu]
  · rw [hdisp, fromStr_as_str _ hmap, hfrender]
    have hR : cred_seg R ++ (path_reg R ++ (query_reg R ++ frag_reg R)) = R := by
      simp only [cred_seg, path_reg, query_reg, frag_reg]
      rw [List.takeWhile_append_dropWhile, List.takeWhile_append_dropWhile,
        List.takeWhile_append_dropWhile]
    simp only [List.append_assoc]
    rw [hR]
    rfl

/-- C4 witness: the amended round trip at the concrete well-formed URL
`https://user:pw@example.com/a/b?x=1&y=2#frag`. -/
theorem c4_witness :
    ∃ u, curl_url_parse ("https://user:pw@example.com/a/b?x=1&y=2#frag".toList) =
        .ok [] u ∧
      u.display = "https://user:pw@example.com/a/b?x=1&y=2#frag".toList :=
  c4_roundtrip_lower_scheme 'h' ("ttps".toList)
    ("user:pw@example.com/a/b?x=1&y=2#frag".toList)
    (by decide) (by decide) (by decide) (by decide) (by decide)

end NomCurl

